import Mathlib

/-!
Verification of the GMMN training program (gmmn_tf2.py).

The development shallowly embeds the program's numeric core over the reals:
batches are row-major matrices modelled as functions `ℕ → ℕ → ℝ` with
explicitly tracked extents, TensorFlow reductions become `Finset.range`
sums, and the stochastic dropout draws are passed in explicitly as uniform
samples from `[0, 1)`.  Fallible TensorFlow/Python operations (shape
mismatches, unbound loop variables, division by zero) are modelled with
`Option`/`Except`.
-/

noncomputable section

namespace GMMN

/-- A real vector, used together with an explicitly tracked extent. -/
abbrev Vec := ℕ → ℝ

/-- A row-major real matrix (batch), used with explicitly tracked extents. -/
abbrev Mat := ℕ → ℕ → ℝ

/-- Python-level errors that the source can raise during construction. -/
inductive PyErr where
  | nameError : PyErr
  | configurationError : PyErr
deriving DecidableEq

/-- tf.nn.relu on one entry (src line 60). -/
def relu (z : ℝ) : ℝ := max z 0

/-- tf.sigmoid, the logistic function, on one entry (src line 88). -/
def sigmoid (z : ℝ) : ℝ := 1 / (1 + Real.exp (-z))

/-- One entry of tf.matmul(x, W) for a single row x whose extent is din. -/
def matmulRow (din : ℕ) (x : Vec) (W : Mat) (j : ℕ) : ℝ :=
  ∑ k ∈ Finset.range din, x k * W k j

/-- tf.nn.dropout with drop probability p, given per-entry uniform draws u from
the interval `[0, 1)`: entry k is zeroed exactly when `u k < p`, and surviving
entries are rescaled by `1 / (1 - p)` (inverted dropout, src line 88). -/
def dropout (p : ℝ) (u : Vec) (x : Vec) : Vec :=
  fun k => if u k < p then 0 else x k / (1 - p)

/-- ReLULayer (src 40-60): a weight matrix, a bias vector, and the dimensions
they were created with.  The random Gaussian initialisation of `W` is a free
parameter of the embedding. -/
structure ReLULayer where
  input_dim : ℕ
  output_dim : ℕ
  W : Mat
  b : Vec

/-- ReLULayer.call (src 59-60): relu(x·W + b) on one row. -/
def ReLULayer.call (L : ReLULayer) (x : Vec) : Vec :=
  fun j => relu (matmulRow L.input_dim x L.W j + L.b j)

/-- SigmoidLayer (src 63-80): weights, bias and the stored dropout probability. -/
structure SigmoidLayer where
  input_dim : ℕ
  output_dim : ℕ
  W : Mat
  b : Vec
  dropout_prob : ℝ

/-- SigmoidLayer.call (src 87-89): sigmoid(dropout(x)·W + b) on one row, where
`u` holds the uniform draws used by tf.nn.dropout for this application. -/
def SigmoidLayer.call (L : SigmoidLayer) (u : Vec) (x : Vec) : Vec :=
  fun j => sigmoid (matmulRow L.input_dim (dropout L.dropout_prob u x) L.W j + L.b j)

/-- A layer of a generator network: the ReLU or the Sigmoid variant. -/
inductive Layer where
  | reluL (L : ReLULayer) : Layer
  | sigmoidL (L : SigmoidLayer) : Layer

instance : Inhabited ReLULayer := ⟨⟨0, 0, fun _ _ => 0, fun _ => 0⟩⟩

instance : Inhabited SigmoidLayer := ⟨⟨0, 0, fun _ _ => 0, fun _ => 0, 0⟩⟩

instance : Inhabited Layer := ⟨.reluL default⟩

/-- Forward propagation through one layer on one row. -/
def Layer.call (l : Layer) (u : Vec) (x : Vec) : Vec :=
  match l with
  | .reluL L => L.call x
  | .sigmoidL L => L.call u x

/-- Forward propagation through one layer on a whole batch, row by row; the
matrix `u` holds one vector of dropout draws per row. -/
def Layer.callB (l : Layer) (u : Mat) (x : Mat) : Mat :=
  fun r => l.call (u r) (x r)

/-- Batch version of SigmoidLayer.call. -/
def SigmoidLayer.callB (L : SigmoidLayer) (u : Mat) (x : Mat) : Mat :=
  fun r => L.call (u r) (x r)

/-- Apply layers 0, 1, ..., count-1 of a layer list to a batch in order, as the
forward loops of the source do; `us i` holds the dropout draws for layer i. -/
def forwardLayers (layers : List Layer) (count : ℕ) (us : ℕ → Mat) (x : Mat) : Mat :=
  (List.range count).foldl (fun h i => (layers.getD i default).callB (us i) h) x

/-- Apply sigmoid layers 0, 1, ..., count-1 of an autoencoder layer list to a
batch in order. -/
def forwardSigmoid (layers : List SigmoidLayer) (count : ℕ) (us : ℕ → Mat) (x : Mat) : Mat :=
  (List.range count).foldl (fun h i => (layers.getD i default).callB (us i) h) x

/-- DataSpaceNetwork (src 92-117): the stored dimension list, batch size and
layer list. -/
structure DataSpaceNetwork where
  dimensions : List ℕ
  batch_size : ℕ
  layers_list : List Layer

/-- DataSpaceNetwork.__init__ (src 100-117): a ReLU layer for dimensions[i] →
dimensions[i+1], i = 0 .. len-3, then one Sigmoid layer dimensions[len-2] →
dimensions[len-1] with the default dropout probability 0.  `Ws i` / `bs i`
stand for the randomly initialised weights of the layer built at loop index i.
When the dimension list has fewer than three entries the loop body never runs
and the use of the loop variable dim_index on src line 116 raises a NameError. -/
def mkDataSpaceNetwork (dimensions : List ℕ) (batch_size : ℕ) (Ws : ℕ → Mat)
    (bs : ℕ → Vec) : Except PyErr DataSpaceNetwork :=
  if 3 ≤ dimensions.length then
    let n := dimensions.length
    let reluLayers := (List.range (n - 2)).map (fun i =>
      Layer.reluL ⟨dimensions.getD i 0, dimensions.getD (i + 1) 0, Ws i, bs i⟩)
    let lastLayer := Layer.sigmoidL
      ⟨dimensions.getD (n - 2) 0, dimensions.getD (n - 1) 0, Ws (n - 2), bs (n - 2), 0⟩
    .ok ⟨dimensions, batch_size, reluLayers ++ [lastLayer]⟩
  else .error .nameError

/-- DataSpaceNetwork.call (src 124-134): apply len(dimensions) - 1 layers in
order to the batch. -/
def DataSpaceNetwork.call (net : DataSpaceNetwork) (us : ℕ → Mat) (x : Mat) : Mat :=
  forwardLayers net.layers_list (net.dimensions.length - 1) us x

/-- makeScaleMatrix (src 142-148, and identically src 365-371): the column of
length num_gen + num_orig whose first num_gen entries are 1/num_gen and whose
last num_orig entries are -1/num_orig. -/
def makeScaleMatrix (num_gen num_orig : ℕ) : Vec :=
  fun i => if i < num_gen then 1 / (num_gen : ℝ) else -(1 / (num_orig : ℝ))

/-- The dot product of two rows of extent d: one entry of
tf.matmul(X, tf.transpose(X)). -/
def dotRow (d : ℕ) (x y : Vec) : ℝ := ∑ k ∈ Finset.range d, x k * y k

/-- tf.concat([A, B], 0) for row-major batches, where A has n rows. -/
def concatRows (n : ℕ) (A B : Mat) : Mat :=
  fun i => if i < n then A i else B (i - n)

/-- Entry (i, j) of exponent = XX - 0.5 * X2 - 0.5 * tf.transpose(X2)
(src 168-176), the RBF kernel exponent before division by the bandwidth. -/
def mmdExponent (d : ℕ) (X : Mat) (i j : ℕ) : ℝ :=
  dotRow d (X i) (X j) - 0.5 * dotRow d (X i) (X i) - 0.5 * dotRow d (X j) (X j)

/-- The contribution of a single bandwidth: tf.reduce_sum(S * kernel_val) with
S = tf.matmul(s, tf.transpose(s)) and kernel_val = tf.exp(1.0 / sigma *
exponent), summed over all N × N row pairs (src 188-191). -/
def kernelTermSum (N d : ℕ) (X : Mat) (s : Vec) (sigma : ℝ) : ℝ :=
  ∑ i ∈ Finset.range N, ∑ j ∈ Finset.range N,
    (s i * s j) * Real.exp (1 / sigma * mmdExponent d X i j)

/-- The loss accumulated over all bandwidths, before the final square root
(src 185-191). -/
def mmdLossSum (N d : ℕ) (X : Mat) (s : Vec) (sigma : List ℝ) : ℝ :=
  (sigma.map (kernelTermSum N d X s)).sum

/-- DataSpaceNetwork.computeLoss (src 158-193).  `x` is the dataset batch with
m rows, `samples` the uniform batch with n rows, and d the common column
extent of the generated batch and x.  The elementwise product S * kernel_val
multiplies the (2·batch_size) × (2·batch_size) scale matrix with the
(n+m) × (n+m) kernel matrix; TensorFlow accepts this exactly when the shapes
agree, or when the kernel matrix is 1 × 1 and broadcasts, and raises a shape
error otherwise (modelled as none).  makeScaleMatrix divides 1.0 by
batch_size, a Python ZeroDivisionError when batch_size = 0 (also none).
tf.sqrt is modelled by Real.sqrt. -/
def DataSpaceNetwork.computeLoss (net : DataSpaceNetwork) (x : Mat) (m : ℕ)
    (samples : Mat) (n : ℕ) (d : ℕ) (us : ℕ → Mat) (sigma : List ℝ) : Option ℝ :=
  let gen_x := net.call us samples
  let X := concatRows n gen_x x
  let s := makeScaleMatrix net.batch_size net.batch_size
  if net.batch_size = 0 then none
  else if n + m = 2 * net.batch_size then
    some (Real.sqrt (mmdLossSum (n + m) d X s sigma))
  else if n + m = 1 then
    some (Real.sqrt ((sigma.map (fun sg =>
      ∑ i ∈ Finset.range (2 * net.batch_size), ∑ j ∈ Finset.range (2 * net.batch_size),
        (s i * s j) * Real.exp (1 / sg * mmdExponent d X 0 0))).sum))
  else none

/-- The MMD value the source computes for a generated batch G and a real batch
R of batch_size rows each: the square root of the accumulated multi-bandwidth
kernel sum over the concatenation, with the scale column split at batch_size. -/
def MMDValue (batch_size d : ℕ) (G R : Mat) (sigma : List ℝ) : ℝ :=
  Real.sqrt (mmdLossSum (batch_size + batch_size) d (concatRows batch_size G R)
    (makeScaleMatrix batch_size batch_size) sigma)

/-- Autoencoder (src 195-222): the stored encoder dimension list and the
2·(len-1) sigmoid layers. -/
structure Autoencoder where
  dimensions : List ℕ
  layers_list : List SigmoidLayer

/-- Autoencoder.__init__ (src 204-222): encoder SigmoidLayers dims[i] →
dims[i+1] with dropout fraction dropout[i], followed by decoder SigmoidLayers
dims[i+1] → dims[i] in reversed index order with the default dropout 0.
`encW`/`encB` and `decW`/`decB` stand for the random initialisations of the
encoder layer and decoder layer created at loop index i. -/
def mkAutoencoder (dimensions : List ℕ) (dropout_fracs : ℕ → ℝ) (encW decW : ℕ → Mat)
    (encB decB : ℕ → Vec) : Autoencoder :=
  let k := dimensions.length - 1
  let enc := (List.range k).map (fun i =>
    ({ input_dim := dimensions.getD i 0, output_dim := dimensions.getD (i + 1) 0,
       W := encW i, b := encB i, dropout_prob := dropout_fracs i } : SigmoidLayer))
  let dec := ((List.range k).reverse).map (fun i =>
    ({ input_dim := dimensions.getD (i + 1) 0, output_dim := dimensions.getD i 0,
       W := decW i, b := decB i, dropout_prob := 0 } : SigmoidLayer))
  ⟨dimensions, enc ++ dec⟩

/-- Autoencoder.layerCost (src 229-248).  rows is the row extent of x; the
reduce_sum ranges over rows × dimensions[layer_index] entries, the shape that
input_rep and the reconstruction have by construction.  `us i` holds the
dropout draws of the forward pass through layer i, `urec` those of the
mirrored decoder layer application. -/
def Autoencoder.layerCost (ae : Autoencoder) (x : Mat) (rows : ℕ) (layer_index : ℕ)
    (us : ℕ → Mat) (urec : Mat) : ℝ :=
  let input_rep := forwardSigmoid ae.layers_list layer_index us x
  let h := (ae.layers_list.getD layer_index default).callB (us layer_index) input_rep
  let rec_ := (ae.layers_list.getD (ae.layers_list.length - 1 - layer_index) default).callB
    urec h
  let cols := ae.dimensions.getD layer_index 0;
  -(∑ r ∈ Finset.range rows, ∑ j ∈ Finset.range cols,
      (input_rep r j * Real.log (rec_ r j) +
        (1 - input_rep r j) * Real.log (1 - rec_ r j)))

/-- Autoencoder.finetuneCost (src 254-265): forward through every layer, then
the cross entropy between x and the full reconstruction, summed over
rows × dimensions[0] entries. -/
def Autoencoder.finetuneCost (ae : Autoencoder) (x : Mat) (rows : ℕ)
    (us : ℕ → Mat) : ℝ :=
  let h := forwardSigmoid ae.layers_list ae.layers_list.length us x
  let cols := ae.dimensions.getD 0 0;
  -(∑ r ∈ Finset.range rows, ∑ j ∈ Finset.range cols,
      (x r j * Real.log (h r j) + (1 - x r j) * Real.log (1 - h r j)))

/-- CodeSpaceNetwork (src 267-299): the stored dimension list, the autoencoder
dimension list, the batch size and the layer list. -/
structure CodeSpaceNetwork where
  dimensions : List ℕ
  auto_encoder_dims : List ℕ
  batch_size : ℕ
  layers_list : List Layer

/-- CodeSpaceNetwork.__init__ (src 277-299): a ReLU layer for every adjacent
pair dimensions[i] → dimensions[i+1], i = 0 .. len-2 (consuming the whole
list, its last entry included), then one Sigmoid layer dimensions[len-1] →
auto_encoder_dims[-1] with the default dropout 0.  A dimension list with
fewer than two entries leaves the loop variable unbound (NameError). -/
def mkCodeSpaceNetwork (dimensions auto_encoder_dims : List ℕ) (batch_size : ℕ)
    (Ws : ℕ → Mat) (bs : ℕ → Vec) : Except PyErr CodeSpaceNetwork :=
  if 2 ≤ dimensions.length then
    let n := dimensions.length
    let reluLayers := (List.range (n - 1)).map (fun i =>
      Layer.reluL ⟨dimensions.getD i 0, dimensions.getD (i + 1) 0, Ws i, bs i⟩)
    let decoder_input_size := auto_encoder_dims.getLastD 0
    let lastLayer := Layer.sigmoidL
      ⟨dimensions.getD (n - 1) 0, decoder_input_size, Ws (n - 1), bs (n - 1), 0⟩
    .ok ⟨dimensions, auto_encoder_dims, batch_size, reluLayers ++ [lastLayer]⟩
  else .error .nameError

/-- CodeSpaceNetwork.call (src 305-315): apply len(dimensions) layers in order
(one more than DataSpaceNetwork.call applies). -/
def CodeSpaceNetwork.call (net : CodeSpaceNetwork) (us : ℕ → Mat) (x : Mat) : Mat :=
  forwardLayers net.layers_list net.dimensions.length us x

/-- CodeSpaceNetwork.generate (src 322-337): generator forward pass, then the
autoencoder layers from index len(auto_encoder.dimensions) - 1 up to
len(auto_encoder.layers) - 1, in order (the while loop is a fold over
List.range' start count). -/
def CodeSpaceNetwork.generate (net : CodeSpaceNetwork) (x : Mat) (ae : Autoencoder)
    (us : ℕ → Mat) (aeUs : ℕ → Mat) : Mat :=
  let h := forwardLayers net.layers_list net.dimensions.length us x
  let start := ae.dimensions.length - 1
  (List.range' start (ae.layers_list.length - start)).foldl
    (fun g i => (ae.layers_list.getD i default).callB (aeUs i) g) h

/-- CodeSpaceNetwork.encode (src 343-358): apply autoencoder layers 0 ..
len(layers)/2 - 1, then tf.stop_gradient, the identity on the value.  Python
divides len(layers) by 2 with float division; the constructor always produces
an even layer count, on which it agrees with natural-number division. -/
def CodeSpaceNetwork.encode (_net : CodeSpaceNetwork) (x : Mat) (ae : Autoencoder)
    (aeUs : ℕ → Mat) : Mat :=
  forwardSigmoid ae.layers_list (ae.layers_list.length / 2) aeUs x

/-- CodeSpaceNetwork.computeLoss (src 380-419): like
DataSpaceNetwork.computeLoss, with the generated codes from the generator
forward pass and the real codes from encoding the dataset batch; the same
shape rules for S * kernel_val apply. -/
def CodeSpaceNetwork.computeLoss (net : CodeSpaceNetwork) (x : Mat) (m : ℕ)
    (samples : Mat) (n : ℕ) (d : ℕ) (ae : Autoencoder) (us : ℕ → Mat)
    (aeUs : ℕ → Mat) (sigma : List ℝ) : Option ℝ :=
  let gen_x := net.call us samples
  let encode_x := net.encode x ae aeUs
  let X := concatRows n gen_x encode_x
  let s := makeScaleMatrix net.batch_size net.batch_size
  if net.batch_size = 0 then none
  else if n + m = 2 * net.batch_size then
    some (Real.sqrt (mmdLossSum (n + m) d X s sigma))
  else if n + m = 1 then
    some (Real.sqrt ((sigma.map (fun sg =>
      ∑ i ∈ Finset.range (2 * net.batch_size), ∑ j ∈ Finset.range (2 * net.batch_size),
        (s i * s j) * Real.exp (1 / sg * mmdExponent d X 0 0))).sum))
  else none

end GMMN

namespace GMMN

/-! ### Positive semidefiniteness of the multi-bandwidth Gaussian kernel sum

The source takes tf.sqrt of the accumulated kernel sum without clamping it.
The following lemmas show the radicand is a nonnegative quadratic form: the
Gaussian kernel matrix is positive semidefinite, by expanding the exponential
of the dot product into its power series and writing every coefficient as a
sum of squares. -/

lemma dotRow_eq_fin (d : ℕ) (x y : Vec) :
    dotRow d x y = ∑ k : Fin d, x (k : ℕ) * y (k : ℕ) := by
  rw [dotRow, Finset.sum_range]

/-- A power of a dot product expands into a Gram-type sum over index tuples. -/
lemma dotRow_pow_eq_sum_tuple (d p : ℕ) (x y : Vec) :
    dotRow d x y ^ p =
      ∑ f : Fin p → Fin d,
        (∏ a, x ((f a : ℕ))) * (∏ a, y ((f a : ℕ))) := by
  induction p with
  | zero => simp
  | succ p ih =>
    have hexp : dotRow d x y ^ (p + 1) = dotRow d x y ^ p * dotRow d x y := pow_succ _ _
    rw [hexp, ih, dotRow_eq_fin, Finset.sum_mul_sum]
    rw [← Equiv.sum_comp (Fin.consEquiv (fun _ => Fin d))
      (fun f => (∏ a, x ((f a : ℕ))) * (∏ a, y ((f a : ℕ))))]
    rw [Fintype.sum_prod_type, Finset.sum_comm]
    apply Finset.sum_congr rfl
    intro f _
    apply Finset.sum_congr rfl
    intro k _
    simp only [Fin.consEquiv_apply, Fin.prod_univ_succ, Fin.cons_zero, Fin.cons_succ]
    ring

/-- The quadratic form of an entrywise power of the Gram matrix of dot
products is nonnegative: it is a sum of squares. -/
lemma quadform_dotRow_pow_nonneg (N d p : ℕ) (Y : Mat) (t : Vec) :
    0 ≤ ∑ i ∈ Finset.range N, ∑ j ∈ Finset.range N,
      t i * t j * dotRow d (Y i) (Y j) ^ p := by
  have hexpand : ∀ i j,
      t i * t j * dotRow d (Y i) (Y j) ^ p =
        ∑ f : Fin p → Fin d,
          (t i * ∏ a, Y i ((f a : ℕ))) * (t j * ∏ a, Y j ((f a : ℕ))) := by
    intro i j
    rw [dotRow_pow_eq_sum_tuple, Finset.mul_sum]
    apply Finset.sum_congr rfl
    intro f _
    ring
  calc 0 ≤ ∑ f : Fin p → Fin d,
        (∑ i ∈ Finset.range N, t i * ∏ a, Y i ((f a : ℕ))) ^ 2 :=
        Finset.sum_nonneg (fun f _ => sq_nonneg _)
    _ = ∑ f : Fin p → Fin d, ∑ i ∈ Finset.range N, ∑ j ∈ Finset.range N,
        (t i * ∏ a, Y i ((f a : ℕ))) * (t j * ∏ a, Y j ((f a : ℕ))) := by
        apply Finset.sum_congr rfl
        intro f _
        rw [sq, Finset.sum_mul_sum]
    _ = ∑ i ∈ Finset.range N, ∑ f : Fin p → Fin d, ∑ j ∈ Finset.range N,
        (t i * ∏ a, Y i ((f a : ℕ))) * (t j * ∏ a, Y j ((f a : ℕ))) :=
        Finset.sum_comm
    _ = ∑ i ∈ Finset.range N, ∑ j ∈ Finset.range N,
        t i * t j * dotRow d (Y i) (Y j) ^ p := by
        apply Finset.sum_congr rfl
        intro i _
        rw [Finset.sum_comm]
        apply Finset.sum_congr rfl
        intro j _
        rw [hexpand i j]

/-- The quadratic form of the entrywise exponential of the Gram matrix of dot
products is nonnegative, via the power series of the exponential. -/
lemma quadform_exp_dotRow_nonneg (N d : ℕ) (Y : Mat) (t : Vec) :
    0 ≤ ∑ i ∈ Finset.range N, ∑ j ∈ Finset.range N,
      t i * t j * Real.exp (dotRow d (Y i) (Y j)) := by
  have hterm : ∀ i j, HasSum
      (fun p : ℕ => t i * t j * (dotRow d (Y i) (Y j) ^ p / p.factorial))
      (t i * t j * Real.exp (dotRow d (Y i) (Y j))) := by
    intro i j
    apply HasSum.mul_left
    have h := NormedSpace.expSeries_div_hasSum_exp (𝕂 := ℝ) (dotRow d (Y i) (Y j))
    rwa [← Real.exp_eq_exp_ℝ] at h
  have hsum : HasSum
      (fun p : ℕ => ∑ i ∈ Finset.range N, ∑ j ∈ Finset.range N,
        t i * t j * (dotRow d (Y i) (Y j) ^ p / p.factorial))
      (∑ i ∈ Finset.range N, ∑ j ∈ Finset.range N,
        t i * t j * Real.exp (dotRow d (Y i) (Y j))) := by
    apply hasSum_sum
    intro i _
    exact hasSum_sum (fun j _ => hterm i j)
  apply hsum.nonneg
  intro p
  have hcoef : ∀ i j, t i * t j * (dotRow d (Y i) (Y j) ^ p / p.factorial) =
      t i * t j * dotRow d (Y i) (Y j) ^ p / p.factorial := by
    intro i j
    ring
  calc (0 : ℝ)
      ≤ (∑ i ∈ Finset.range N, ∑ j ∈ Finset.range N,
          t i * t j * dotRow d (Y i) (Y j) ^ p) / p.factorial :=
        div_nonneg (quadform_dotRow_pow_nonneg N d p Y t) (Nat.cast_nonneg _)
    _ = ∑ i ∈ Finset.range N, ∑ j ∈ Finset.range N,
          t i * t j * (dotRow d (Y i) (Y j) ^ p / p.factorial) := by
        rw [Finset.sum_div]
        apply Finset.sum_congr rfl
        intro i _
        rw [Finset.sum_div]
        apply Finset.sum_congr rfl
        intro j _
        rw [hcoef i j]

/-- For a positive bandwidth, the per-bandwidth term of the accumulated MMD
loss is nonnegative: the scaled Gaussian kernel matrix is positive
semidefinite, for any scale column and any concatenated batch. -/
theorem kernelTermSum_nonneg (N d : ℕ) (X : Mat) (s : Vec) {sigma : ℝ}
    (hs : 0 < sigma) : 0 ≤ kernelTermSum N d X s sigma := by
  set γ : ℝ := 1 / sigma with hγdef
  have hγ : 0 ≤ γ := le_of_lt (by positivity)
  set Y : Mat := fun i k => Real.sqrt γ * X i k with hYdef
  set t : Vec := fun i =>
    s i * Real.exp (-(γ * dotRow d (X i) (X i)) / 2) with htdef
  have hdotY : ∀ i j, dotRow d (Y i) (Y j) = γ * dotRow d (X i) (X j) := by
    intro i j
    rw [dotRow, dotRow, Finset.mul_sum]
    apply Finset.sum_congr rfl
    intro k _
    have : Real.sqrt γ * Real.sqrt γ = γ := Real.mul_self_sqrt hγ
    calc Y i k * Y j k = Real.sqrt γ * Real.sqrt γ * (X i k * X j k) := by
          rw [hYdef]; ring
      _ = γ * (X i k * X j k) := by rw [this]
  have hpt : ∀ i j,
      s i * s j * Real.exp (1 / sigma * mmdExponent d X i j) =
        t i * t j * Real.exp (dotRow d (Y i) (Y j)) := by
    intro i j
    rw [htdef, hdotY, mmdExponent, ← hγdef]
    have harg : γ * (dotRow d (X i) (X j) - 0.5 * dotRow d (X i) (X i)
        - 0.5 * dotRow d (X j) (X j)) =
        -(γ * dotRow d (X i) (X i)) / 2 + (-(γ * dotRow d (X j) (X j)) / 2
          + γ * dotRow d (X i) (X j)) := by
      ring
    rw [harg, Real.exp_add, Real.exp_add]
    ring
  rw [kernelTermSum]
  have hrw : ∑ i ∈ Finset.range N, ∑ j ∈ Finset.range N,
      s i * s j * Real.exp (1 / sigma * mmdExponent d X i j) =
      ∑ i ∈ Finset.range N, ∑ j ∈ Finset.range N,
        t i * t j * Real.exp (dotRow d (Y i) (Y j)) := by
    apply Finset.sum_congr rfl
    intro i _
    apply Finset.sum_congr rfl
    intro j _
    exact hpt i j
  rw [hrw]
  exact quadform_exp_dotRow_nonneg N d Y t

/-- The accumulated loss over any list of positive bandwidths is nonnegative. -/
theorem mmdLossSum_nonneg (N d : ℕ) (X : Mat) (s : Vec) (sigma : List ℝ)
    (h : ∀ a ∈ sigma, 0 < a) : 0 ≤ mmdLossSum N d X s sigma := by
  rw [mmdLossSum]
  apply List.sum_nonneg
  intro a ha
  rcases List.mem_map.mp ha with ⟨b, hb, rfl⟩
  exact kernelTermSum_nonneg N d X s (h b hb)

end GMMN

namespace GMMN

/-- The all-zero batch, used by the concrete witnesses below. -/
def mat0 : Mat := fun _ _ => 0

/-- The all-zero weight matrix source. -/
def Ws0 : ℕ → Mat := fun _ _ _ => 0

/-- The all-zero bias source. -/
def bs0 : ℕ → Vec := fun _ _ => 0

/-- A concrete three-dimension network with batch size one, the shape
mkDataSpaceNetwork produces for dimensions [1, 1, 1] and zero weights. -/
def netOne : DataSpaceNetwork :=
  ⟨[1, 1, 1], 1,
    [Layer.reluL ⟨1, 1, fun _ _ => 0, fun _ => 0⟩,
     Layer.sigmoidL ⟨1, 1, fun _ _ => 0, fun _ => 0, 0⟩]⟩

lemma mkDataSpaceNetwork_netOne : mkDataSpaceNetwork [1, 1, 1] 1 Ws0 bs0 = .ok netOne := by
  rw [mkDataSpaceNetwork]
  norm_num [netOne, Ws0, bs0, List.range_succ]
  exact ⟨⟨rfl, rfl⟩, rfl, rfl⟩

/-- C1: for every generated batch (the forward image of any noise batch) and
real batch of matching extent, and every list of positive bandwidths,
the value computeLoss returns is sqrt(max(loss, 0)) for the accumulated
multi-bandwidth kernel sum loss: that sum is provably nonnegative (the
Gaussian kernel matrix is positive semidefinite), so max leaves it unchanged,
the square root is well defined, and every returned value is a nonnegative
real. -/
theorem computeLoss_sqrt_clamp_nonneg (net : DataSpaceNetwork) (x : Mat)
    (m : ℕ) (samples : Mat) (n d : ℕ) (us : ℕ → Mat) (sigma : List ℝ)
    (hsig : ∀ a ∈ sigma, 0 < a) (hB : net.batch_size ≠ 0)
    (hshape : n + m = 2 * net.batch_size) :
    net.computeLoss x m samples n d us sigma =
      some (Real.sqrt (max (mmdLossSum (n + m) d
        (concatRows n (net.call us samples) x)
        (makeScaleMatrix net.batch_size net.batch_size) sigma) 0)) ∧
    0 ≤ mmdLossSum (n + m) d (concatRows n (net.call us samples) x)
        (makeScaleMatrix net.batch_size net.batch_size) sigma ∧
    ∀ v, net.computeLoss x m samples n d us sigma = some v → 0 ≤ v := by
  have hS : 0 ≤ mmdLossSum (n + m) d (concatRows n (net.call us samples) x)
      (makeScaleMatrix net.batch_size net.batch_size) sigma :=
    mmdLossSum_nonneg _ _ _ _ sigma hsig
  have heq : net.computeLoss x m samples n d us sigma =
      some (Real.sqrt (mmdLossSum (n + m) d
        (concatRows n (net.call us samples) x)
        (makeScaleMatrix net.batch_size net.batch_size) sigma)) := by
    simp only [DataSpaceNetwork.computeLoss]
    rw [if_neg hB, if_pos hshape]
  refine ⟨?_, hS, ?_⟩
  · rw [heq, max_eq_left hS]
  · intro v hv
    rw [heq] at hv
    rcases Option.some_inj.mp hv with rfl
    exact Real.sqrt_nonneg _

/-- Witness for C1 at a concrete input: batch size one, one bandwidth. -/
theorem computeLoss_sqrt_clamp_nonneg_witness :
    ((∀ a ∈ ([2] : List ℝ), 0 < a) ∧ netOne.batch_size ≠ 0 ∧
      1 + 1 = 2 * netOne.batch_size) ∧
    (netOne.computeLoss mat0 1 mat0 1 1 (fun _ => mat0) [2] =
      some (Real.sqrt (max (mmdLossSum (1 + 1) 1
        (concatRows 1 (netOne.call (fun _ => mat0) mat0) mat0)
        (makeScaleMatrix netOne.batch_size netOne.batch_size) [2]) 0)) ∧
    0 ≤ mmdLossSum (1 + 1) 1 (concatRows 1 (netOne.call (fun _ => mat0) mat0) mat0)
        (makeScaleMatrix netOne.batch_size netOne.batch_size) [2] ∧
    ∀ v, netOne.computeLoss mat0 1 mat0 1 1 (fun _ => mat0) [2] = some v → 0 ≤ v) :=
  ⟨⟨by norm_num, by simp [netOne], by simp [netOne]⟩,
    computeLoss_sqrt_clamp_nonneg netOne mat0 1 mat0 1 1 (fun _ => mat0) [2]
      (by norm_num) (by simp [netOne]) (by simp [netOne])⟩

end GMMN

namespace GMMN

/-! ### Role symmetry of the MMD value (claim C4) -/

/-- The index permutation exchanging the first and the second half of the
concatenated batch. -/
def swapHalf (B i : ℕ) : ℕ := if i < B then i + B else i - B

lemma swapHalf_mem {B i : ℕ} (h : i ∈ Finset.range (B + B)) :
    swapHalf B i ∈ Finset.range (B + B) := by
  rw [Finset.mem_range] at *
  rw [swapHalf]
  split <;> omega

lemma swapHalf_invol {B i : ℕ} (h : i ∈ Finset.range (B + B)) :
    swapHalf B (swapHalf B i) = i := by
  rw [Finset.mem_range] at h
  simp only [swapHalf]
  split <;> split <;> omega

lemma makeScaleMatrix_swapHalf (B : ℕ) {i : ℕ} (h : i ∈ Finset.range (B + B)) :
    makeScaleMatrix B B (swapHalf B i) = -(makeScaleMatrix B B i) := by
  rw [Finset.mem_range] at h
  by_cases hi : i < B
  · have h1 : ¬ (i + B < B) := by omega
    simp [makeScaleMatrix, swapHalf, hi, h1]
  · have h2 : i - B < B := by omega
    simp [makeScaleMatrix, swapHalf, hi, h2]

lemma concatRows_swapHalf (B : ℕ) (G R : Mat) {i : ℕ}
    (h : i ∈ Finset.range (B + B)) :
    concatRows B R G (swapHalf B i) = concatRows B G R i := by
  rw [Finset.mem_range] at h
  by_cases hi : i < B
  · have h1 : ¬ (i + B < B) := by omega
    have h2 : i + B - B = i := by omega
    simp [concatRows, swapHalf, hi, h1, h2]
  · have h2 : i - B < B := by omega
    simp [concatRows, swapHalf, hi, h2]

lemma kernelTermSum_swap (B d : ℕ) (G R : Mat) (sg : ℝ) :
    kernelTermSum (B + B) d (concatRows B R G) (makeScaleMatrix B B) sg =
    kernelTermSum (B + B) d (concatRows B G R) (makeScaleMatrix B B) sg := by
  rw [kernelTermSum, kernelTermSum]
  refine Finset.sum_nbij' (swapHalf B) (swapHalf B) (fun a ha => swapHalf_mem ha)
    (fun a ha => swapHalf_mem ha) (fun a ha => swapHalf_invol ha)
    (fun a ha => swapHalf_invol ha) ?_
  intro a ha
  refine Finset.sum_nbij' (swapHalf B) (swapHalf B) (fun b hb => swapHalf_mem hb)
    (fun b hb => swapHalf_mem hb) (fun b hb => swapHalf_invol hb)
    (fun b hb => swapHalf_invol hb) ?_
  intro b hb
  have hXa : concatRows B G R (swapHalf B a) = concatRows B R G a :=
    concatRows_swapHalf B R G ha
  have hXb : concatRows B G R (swapHalf B b) = concatRows B R G b :=
    concatRows_swapHalf B R G hb
  have hexpo : mmdExponent d (concatRows B G R) (swapHalf B a) (swapHalf B b) =
      mmdExponent d (concatRows B R G) a b := by
    simp only [mmdExponent, hXa, hXb]
  rw [hexpo, makeScaleMatrix_swapHalf B ha, makeScaleMatrix_swapHalf B hb]
  ring

/-- C4: the MMD value the source computes for equal-sized batches is the same
scalar when the generated and the real batch exchange roles (the scale
column's positive and negative halves exchange with them). -/
theorem MMDValue_role_swap (B d : ℕ) (G R : Mat) (sigma : List ℝ) :
    MMDValue B d G R sigma = MMDValue B d R G sigma := by
  have hfun : kernelTermSum (B + B) d (concatRows B G R) (makeScaleMatrix B B) =
      kernelTermSum (B + B) d (concatRows B R G) (makeScaleMatrix B B) := by
    funext sg
    exact (kernelTermSum_swap B d G R sg).symm
  rw [MMDValue, MMDValue, mmdLossSum, mmdLossSum, hfun]

end GMMN

namespace GMMN

/-! ### The accumulated signed kernel sum (claim C3) -/

/-- computeLoss in the supported configuration (both batches of batch_size
rows) succeeds and returns the MMD value of the generated and dataset batch. -/
lemma computeLoss_eq_MMDValue (net : DataSpaceNetwork) (x : Mat) (samples : Mat)
    (d : ℕ) (us : ℕ → Mat) (sigma : List ℝ) (hB : net.batch_size ≠ 0) :
    net.computeLoss x net.batch_size samples net.batch_size d us sigma =
      some (MMDValue net.batch_size d (net.call us samples) x sigma) := by
  simp only [DataSpaceNetwork.computeLoss, MMDValue]
  rw [if_neg hB, if_pos (two_mul net.batch_size).symm]

/-- The coefficient matrix named by the claim: +1/n² on generated-generated
pairs, +1/m² on real-real pairs, and -1/(nm) on cross pairs, for a generated
block of n rows followed by a real block of m rows. -/
def specScaleOuter (n m : ℕ) : Mat := fun a b =>
  if a < n then (if b < n then 1 / ((n : ℝ) * n) else -(1 / ((n : ℝ) * m)))
  else (if b < n then -(1 / ((n : ℝ) * m)) else 1 / ((m : ℝ) * m))

/-- The claim's accumulated sum: over every bandwidth and every row pair of
the concatenation X = [G; R], the signed coefficient times
exp((Xa·Xb - 0.5‖Xa‖² - 0.5‖Xb‖²) / σ). -/
def specMMDSum (n m d : ℕ) (G R : Mat) (sigma : List ℝ) : ℝ :=
  (sigma.map (fun sg => ∑ a ∈ Finset.range (n + m), ∑ b ∈ Finset.range (n + m),
    specScaleOuter n m a b *
      Real.exp ((dotRow d (concatRows n G R a) (concatRows n G R b)
        - 0.5 * dotRow d (concatRows n G R a) (concatRows n G R a)
        - 0.5 * dotRow d (concatRows n G R b) (concatRows n G R b)) / sg))).sum

lemma makeScaleMatrix_mul_eq_specScaleOuter (n m a b : ℕ) :
    makeScaleMatrix n m a * makeScaleMatrix n m b = specScaleOuter n m a b := by
  by_cases ha : a < n <;> by_cases hb : b < n <;>
    simp only [makeScaleMatrix, specScaleOuter, if_pos, if_neg, ha, hb, if_true,
      if_false] <;> ring

/-- C3: with the noise batch and the dataset batch each of batch_size rows
(the supported configuration), computeLoss accumulates, before the final
square root, exactly the claim's signed multi-bandwidth kernel sum. -/
theorem computeLoss_accumulates_signed_kernel_sum (net : DataSpaceNetwork)
    (x : Mat) (samples : Mat) (d : ℕ) (us : ℕ → Mat) (sigma : List ℝ)
    (n m : ℕ) (hn : n = net.batch_size) (hm : m = net.batch_size)
    (hB : net.batch_size ≠ 0) :
    net.computeLoss x m samples n d us sigma =
      some (Real.sqrt (specMMDSum n m d (net.call us samples) x sigma)) := by
  subst hn
  subst hm
  rw [computeLoss_eq_MMDValue net x samples d us sigma hB, MMDValue]
  have hfun : kernelTermSum (net.batch_size + net.batch_size) d
      (concatRows net.batch_size (net.call us samples) x)
      (makeScaleMatrix net.batch_size net.batch_size) =
      fun sg => ∑ a ∈ Finset.range (net.batch_size + net.batch_size),
        ∑ b ∈ Finset.range (net.batch_size + net.batch_size),
        specScaleOuter net.batch_size net.batch_size a b *
          Real.exp ((dotRow d (concatRows net.batch_size (net.call us samples) x a)
              (concatRows net.batch_size (net.call us samples) x b)
            - 0.5 * dotRow d (concatRows net.batch_size (net.call us samples) x a)
              (concatRows net.batch_size (net.call us samples) x a)
            - 0.5 * dotRow d (concatRows net.batch_size (net.call us samples) x b)
              (concatRows net.batch_size (net.call us samples) x b)) / sg) := by
    funext sg
    rw [kernelTermSum]
    apply Finset.sum_congr rfl
    intro a _
    apply Finset.sum_congr rfl
    intro b _
    rw [makeScaleMatrix_mul_eq_specScaleOuter, mmdExponent, one_div_mul_eq_div]
  rw [mmdLossSum, specMMDSum, hfun]

/-- Witness for C3 at a concrete input: batch size one, one bandwidth. -/
theorem computeLoss_accumulates_signed_kernel_sum_witness :
    (1 = netOne.batch_size ∧ netOne.batch_size ≠ 0) ∧
    netOne.computeLoss mat0 1 mat0 1 1 (fun _ => mat0) [2] =
      some (Real.sqrt (specMMDSum 1 1 1 (netOne.call (fun _ => mat0) mat0) mat0 [2])) :=
  ⟨⟨rfl, by simp [netOne]⟩,
    computeLoss_accumulates_signed_kernel_sum netOne mat0 mat0 1 (fun _ => mat0) [2]
      1 1 rfl rfl (by simp [netOne])⟩

end GMMN

namespace GMMN

/-! ### Shape behaviour of computeLoss (claim C9) -/

/-- A concrete three-dimension network with batch size two. -/
def netTwo : DataSpaceNetwork :=
  ⟨[1, 1, 1], 2,
    [Layer.reluL ⟨1, 1, fun _ _ => 0, fun _ => 0⟩,
     Layer.sigmoidL ⟨1, 1, fun _ _ => 0, fun _ => 0, 0⟩]⟩

/-- A concrete two-dimension code-space network with batch size one. -/
def cnetOne : CodeSpaceNetwork :=
  ⟨[1, 1], [1, 1], 1,
    [Layer.reluL ⟨1, 1, fun _ _ => 0, fun _ => 0⟩,
     Layer.sigmoidL ⟨1, 1, fun _ _ => 0, fun _ => 0, 0⟩]⟩

/-- A concrete two-dimension autoencoder with zero weights. -/
def aeOne : Autoencoder := mkAutoencoder [1, 1] (fun _ => 0) Ws0 Ws0 bs0 bs0

/-- C9 counterexample: with batch_size 2, a noise batch of 3 rows and a real
batch of 1 row — n and m both different from batch_size and from each other —
computeLoss still executes and returns a value, because the elementwise
product is shape-compatible whenever n + m = 2·batch_size; the claimed
precondition n = m = batch_size is not what the code requires. -/
theorem computeLoss_unequal_batches_defined :
    (netTwo.computeLoss mat0 1 mat0 3 1 (fun _ => mat0) [1]).isSome = true ∧
    (3 : ℕ) ≠ netTwo.batch_size ∧ (1 : ℕ) ≠ netTwo.batch_size ∧ (3 : ℕ) ≠ 1 := by
  refine ⟨?_, by simp [netTwo], by simp [netTwo], by norm_num⟩
  simp only [DataSpaceNetwork.computeLoss]
  rw [if_neg (by simp [netTwo] : ¬ netTwo.batch_size = 0),
    if_pos (by simp [netTwo] : 3 + 1 = 2 * netTwo.batch_size)]
  rfl

/-- C9 (amended): both computeLoss implementations build the signed scale
vector from the constructor-fixed batch_size for both halves, never from the
argument batches' row counts, and — beyond the degenerate one-row broadcast
case — the elementwise product is shape-compatible exactly when n + m equals
2·batch_size; unequal generated/real row counts with n + m = 2·batch_size
execute as well, with the sign split of the scale vector at batch_size. -/
theorem computeLoss_shape_and_scale (net : DataSpaceNetwork)
    (cnet : CodeSpaceNetwork) (ae : Autoencoder) (x : Mat) (m : ℕ)
    (samples : Mat) (n d : ℕ) (us aeUs : ℕ → Mat) (sigma : List ℝ)
    (hB : net.batch_size ≠ 0) (hB2 : cnet.batch_size ≠ 0) (hbig : 1 < n + m) :
    ((net.computeLoss x m samples n d us sigma).isSome ↔
      n + m = 2 * net.batch_size) ∧
    (n + m = 2 * net.batch_size →
      net.computeLoss x m samples n d us sigma =
        some (Real.sqrt (mmdLossSum (n + m) d
          (concatRows n (net.call us samples) x)
          (makeScaleMatrix net.batch_size net.batch_size) sigma))) ∧
    ((cnet.computeLoss x m samples n d ae us aeUs sigma).isSome ↔
      n + m = 2 * cnet.batch_size) ∧
    (n + m = 2 * cnet.batch_size →
      cnet.computeLoss x m samples n d ae us aeUs sigma =
        some (Real.sqrt (mmdLossSum (n + m) d
          (concatRows n (cnet.call us samples) (cnet.encode x ae aeUs))
          (makeScaleMatrix cnet.batch_size cnet.batch_size) sigma))) := by
  have hne1 : n + m ≠ 1 := by omega
  refine ⟨?_, ?_, ?_, ?_⟩
  · by_cases hsh : n + m = 2 * net.batch_size
    · simp only [DataSpaceNetwork.computeLoss]
      rw [if_neg hB, if_pos hsh]
      simp [hsh]
    · simp only [DataSpaceNetwork.computeLoss]
      rw [if_neg hB, if_neg hsh, if_neg hne1]
      simp [hsh]
  · intro hsh
    simp only [DataSpaceNetwork.computeLoss]
    rw [if_neg hB, if_pos hsh]
  · by_cases hsh : n + m = 2 * cnet.batch_size
    · simp only [CodeSpaceNetwork.computeLoss]
      rw [if_neg hB2, if_pos hsh]
      simp [hsh]
    · simp only [CodeSpaceNetwork.computeLoss]
      rw [if_neg hB2, if_neg hsh, if_neg hne1]
      simp [hsh]
  · intro hsh
    simp only [CodeSpaceNetwork.computeLoss]
    rw [if_neg hB2, if_pos hsh]

/-- Witness for the amended C9 at a concrete input. -/
theorem computeLoss_shape_and_scale_witness :
    (netOne.batch_size ≠ 0 ∧ cnetOne.batch_size ≠ 0 ∧ 1 < 1 + 1) ∧
    (((netOne.computeLoss mat0 1 mat0 1 1 (fun _ => mat0) [1]).isSome ↔
        1 + 1 = 2 * netOne.batch_size) ∧
      (1 + 1 = 2 * netOne.batch_size →
        netOne.computeLoss mat0 1 mat0 1 1 (fun _ => mat0) [1] =
          some (Real.sqrt (mmdLossSum (1 + 1) 1
            (concatRows 1 (netOne.call (fun _ => mat0) mat0) mat0)
            (makeScaleMatrix netOne.batch_size netOne.batch_size) [1]))) ∧
      ((cnetOne.computeLoss mat0 1 mat0 1 1 aeOne (fun _ => mat0)
          (fun _ => mat0) [1]).isSome ↔ 1 + 1 = 2 * cnetOne.batch_size) ∧
      (1 + 1 = 2 * cnetOne.batch_size →
        cnetOne.computeLoss mat0 1 mat0 1 1 aeOne (fun _ => mat0)
            (fun _ => mat0) [1] =
          some (Real.sqrt (mmdLossSum (1 + 1) 1
            (concatRows 1 (cnetOne.call (fun _ => mat0) mat0)
              (cnetOne.encode mat0 aeOne (fun _ => mat0)))
            (makeScaleMatrix cnetOne.batch_size cnetOne.batch_size) [1])))) :=
  ⟨⟨by simp [netOne], by simp [cnetOne], by norm_num⟩,
    computeLoss_shape_and_scale netOne cnetOne aeOne mat0 1 mat0 1 1
      (fun _ => mat0) (fun _ => mat0) [1] (by simp [netOne]) (by simp [cnetOne])
      (by norm_num)⟩

end GMMN

namespace GMMN

/-! ### Construction-time dimension validation (claim C2) -/

/-- The (input_dim, output_dim) pair of a layer. -/
def Layer.dims : Layer → ℕ × ℕ
  | .reluL L => (L.input_dim, L.output_dim)
  | .sigmoidL L => (L.input_dim, L.output_dim)

/-- Modelled from the spec: FeedForwardNetwork construction from an ordered
list of (input, output) layer dimensions "must validate (at construction)
that adjacent layer dimensions match; constructing with mismatched dimensions
fails with a configuration error", and the stack must be non-empty.  The
source has no such constructor and no ConfigurationError; this definition
follows the spec's words for comparison. -/
def mkFeedForwardNetworkSpec (layerDims : List (ℕ × ℕ)) :
    Except PyErr (List (ℕ × ℕ)) :=
  if layerDims ≠ [] ∧ List.Chain' (fun a b => a.2 = b.1) layerDims
  then .ok layerDims else .error .configurationError

/-- C2 counterexample: a single 10 → 20 layer (the closest rendering of the
spec's example through the source's single-dimension-list interface is the
two-entry list [10, 20]) is accepted by the spec's validating constructor,
but the source constructor fails on [10, 20] — and it fails with a NameError
from an unbound loop variable, not with a ConfigurationError; no code path of
the constructor produces a ConfigurationError. -/
theorem mkDataSpaceNetwork_not_validating :
    mkFeedForwardNetworkSpec [(10, 20)] = .ok [(10, 20)] ∧
    mkDataSpaceNetwork [10, 20] 5 Ws0 bs0 = .error .nameError ∧
    PyErr.nameError ≠ PyErr.configurationError := by
  refine ⟨?_, ?_, by decide⟩
  · rw [mkFeedForwardNetworkSpec, if_pos]
    exact ⟨by simp, List.chain'_singleton _⟩
  · rw [mkDataSpaceNetwork, if_neg (by norm_num)]

/-- C2 (amended): the data-space constructor performs no dimension validation
and can never raise the spec's ConfigurationError: for every dimension list
with at least three entries it succeeds, and the layers it builds are exactly
the adjacent pairs of the list — so adjacent layer dimensions always match by
construction and the spec's validating constructor accepts every constructed
network; shorter lists fail with a NameError (an unbound loop variable),
never with a ConfigurationError. -/
theorem mkDataSpaceNetwork_adjacent_by_construction (dims : List ℕ) (B : ℕ)
    (Ws : ℕ → Mat) (bs : ℕ → Vec) (h3 : 3 ≤ dims.length) :
    ∃ net, mkDataSpaceNetwork dims B Ws bs = .ok net ∧
      net.layers_list.map Layer.dims =
        (List.range (dims.length - 1)).map
          (fun i => (dims.getD i 0, dims.getD (i + 1) 0)) ∧
      mkFeedForwardNetworkSpec (net.layers_list.map Layer.dims) =
        .ok (net.layers_list.map Layer.dims) ∧
      mkDataSpaceNetwork dims B Ws bs ≠ .error .configurationError := by
  rw [mkDataSpaceNetwork, if_pos h3]
  refine ⟨_, rfl, ?_⟩
  have hpairs :
      (((List.range (dims.length - 2)).map (fun i =>
          Layer.reluL ⟨dims.getD i 0, dims.getD (i + 1) 0, Ws i, bs i⟩)) ++
        [Layer.sigmoidL ⟨dims.getD (dims.length - 2) 0,
          dims.getD (dims.length - 1) 0, Ws (dims.length - 2),
          bs (dims.length - 2), 0⟩]).map Layer.dims =
      (List.range (dims.length - 1)).map
        (fun i => (dims.getD i 0, dims.getD (i + 1) 0)) := by
    have hlen : dims.length - 1 = (dims.length - 2) + 1 := by omega
    have hsub : dims.length - 2 + 1 = dims.length - 1 := by omega
    rw [hlen, List.range_succ, List.map_append, List.map_append]
    simp only [List.map_map, List.map_cons, List.map_nil, Function.comp,
      Layer.dims, hsub]
    have hc : (Layer.dims ∘ fun i =>
        Layer.reluL ⟨dims.getD i 0, dims.getD (i + 1) 0, Ws i, bs i⟩) =
        fun i => (dims.getD i 0, dims.getD (i + 1) 0) := by
      funext i
      rfl
    rw [hc]
  refine ⟨hpairs, ?_, by simp⟩
  rw [hpairs, mkFeedForwardNetworkSpec, if_pos]
  constructor
  · have : dims.length - 1 ≠ 0 := by omega
    simp [List.range_eq_nil, this]
  · rw [List.chain'_map]
    have hlen : dims.length - 1 = (dims.length - 2) + 1 := by omega
    rw [hlen, List.chain'_range_succ]
    intro m _
    rfl

/-- Witness for the amended C2 at a concrete dimension list. -/
theorem mkDataSpaceNetwork_adjacent_by_construction_witness :
    (3 ≤ ([2, 3, 4] : List ℕ).length) ∧
    (∃ net, mkDataSpaceNetwork [2, 3, 4] 5 Ws0 bs0 = .ok net ∧
      net.layers_list.map Layer.dims =
        (List.range (([2, 3, 4] : List ℕ).length - 1)).map
          (fun i => (([2, 3, 4] : List ℕ).getD i 0,
            ([2, 3, 4] : List ℕ).getD (i + 1) 0)) ∧
      mkFeedForwardNetworkSpec (net.layers_list.map Layer.dims) =
        .ok (net.layers_list.map Layer.dims) ∧
      mkDataSpaceNetwork [2, 3, 4] 5 Ws0 bs0 ≠ .error .configurationError) :=
  ⟨by norm_num,
    mkDataSpaceNetwork_adjacent_by_construction [2, 3, 4] 5 Ws0 bs0 (by norm_num)⟩

end GMMN

namespace GMMN

/-! ### Layer structure of the code-space network (claim C10) -/

/-- Whether a layer is the Sigmoid variant. -/
def Layer.isSigmoid : Layer → Bool
  | .reluL _ => false
  | .sigmoidL _ => true

/-- C10: from the same dimension list (length ≥ 3, so that both constructors
succeed), the code-space constructor builds one layer more than the
data-space constructor: a ReLU layer for every adjacent pair of the list —
consuming the whole list, its last entry included — plus one final Sigmoid
layer from the list's last entry to the autoencoder's innermost dimension,
and its forward pass applies all len(dimensions) layers, so it maps a batch
of width dimensions[0] to codes of width auto_encoder_dims[-1]. -/
theorem mkCodeSpaceNetwork_structure (dims aeDims : List ℕ) (B B2 : ℕ)
    (Ws : ℕ → Mat) (bs : ℕ → Vec) (Ws2 : ℕ → Mat) (bs2 : ℕ → Vec)
    (h3 : 3 ≤ dims.length) :
    ∃ cnet dnet,
      mkCodeSpaceNetwork dims aeDims B Ws bs = .ok cnet ∧
      mkDataSpaceNetwork dims B2 Ws2 bs2 = .ok dnet ∧
      cnet.layers_list.length = dims.length ∧
      dnet.layers_list.length = dims.length - 1 ∧
      cnet.layers_list.length = dnet.layers_list.length + 1 ∧
      cnet.layers_list.map Layer.dims =
        ((List.range (dims.length - 1)).map
          (fun i => (dims.getD i 0, dims.getD (i + 1) 0))) ++
        [(dims.getD (dims.length - 1) 0, aeDims.getLastD 0)] ∧
      cnet.layers_list.map Layer.isSigmoid =
        List.replicate (dims.length - 1) false ++ [true] ∧
      cnet.dimensions = dims ∧
      (∀ us x, cnet.call us x = forwardLayers cnet.layers_list dims.length us x) := by
  rw [mkCodeSpaceNetwork, if_pos (by omega : 2 ≤ dims.length),
    mkDataSpaceNetwork, if_pos h3]
  refine ⟨_, _, rfl, rfl, ?_, ?_, ?_, ?_, ?_, rfl, fun us x => rfl⟩
  · simp only [List.length_append, List.length_map, List.length_range,
      List.length_cons, List.length_nil]
    omega
  · simp only [List.length_append, List.length_map, List.length_range,
      List.length_cons, List.length_nil]
    omega
  · simp only [List.length_append, List.length_map, List.length_range,
      List.length_cons, List.length_nil]
    omega
  · rw [List.map_append, List.map_map]
    have hc : (Layer.dims ∘ fun i =>
        Layer.reluL ⟨dims.getD i 0, dims.getD (i + 1) 0, Ws i, bs i⟩) =
        fun i => (dims.getD i 0, dims.getD (i + 1) 0) := by
      funext i
      rfl
    rw [hc]
    rfl
  · rw [List.map_append, List.map_map]
    have hc : (Layer.isSigmoid ∘ fun i =>
        Layer.reluL ⟨dims.getD i 0, dims.getD (i + 1) 0, Ws i, bs i⟩) =
        fun _ => false := by
      funext i
      rfl
    rw [hc]
    have hrep : (List.range (dims.length - 1)).map (fun _ => false) =
        List.replicate (dims.length - 1) false := by
      rw [List.map_const', List.length_range]
    rw [hrep]
    rfl

/-- Witness for C10 at a concrete dimension list. -/
theorem mkCodeSpaceNetwork_structure_witness :
    (3 ≤ ([2, 3, 4] : List ℕ).length) ∧
    (∃ cnet dnet,
      mkCodeSpaceNetwork [2, 3, 4] [4, 2] 1 Ws0 bs0 = .ok cnet ∧
      mkDataSpaceNetwork [2, 3, 4] 1 Ws0 bs0 = .ok dnet ∧
      cnet.layers_list.length = ([2, 3, 4] : List ℕ).length ∧
      dnet.layers_list.length = ([2, 3, 4] : List ℕ).length - 1 ∧
      cnet.layers_list.length = dnet.layers_list.length + 1 ∧
      cnet.layers_list.map Layer.dims =
        ((List.range (([2, 3, 4] : List ℕ).length - 1)).map
          (fun i => (([2, 3, 4] : List ℕ).getD i 0,
            ([2, 3, 4] : List ℕ).getD (i + 1) 0))) ++
        [(([2, 3, 4] : List ℕ).getD (([2, 3, 4] : List ℕ).length - 1) 0,
          ([4, 2] : List ℕ).getLastD 0)] ∧
      cnet.layers_list.map Layer.isSigmoid =
        List.replicate (([2, 3, 4] : List ℕ).length - 1) false ++ [true] ∧
      cnet.dimensions = [2, 3, 4] ∧
      (∀ us x, cnet.call us x =
        forwardLayers cnet.layers_list ([2, 3, 4] : List ℕ).length us x)) :=
  ⟨by norm_num,
    mkCodeSpaceNetwork_structure [2, 3, 4] [4, 2] 1 1 Ws0 bs0 Ws0 bs0 (by norm_num)⟩

end GMMN

namespace GMMN

/-! ### Greedy per-layer pretraining cost (claim C5) -/

lemma forwardSigmoid_succ (L : List SigmoidLayer) (c : ℕ) (us : ℕ → Mat) (x : Mat) :
    forwardSigmoid L (c + 1) us x =
      (L.getD c default).callB (us c) (forwardSigmoid L c us x) := by
  rw [forwardSigmoid, forwardSigmoid, List.range_succ, List.foldl_append]
  rfl

lemma forwardLayers_succ (L : List Layer) (c : ℕ) (us : ℕ → Mat) (x : Mat) :
    forwardLayers L (c + 1) us x =
      (L.getD c default).callB (us c) (forwardLayers L c us x) := by
  rw [forwardLayers, forwardLayers, List.range_succ, List.foldl_append]
  rfl

/-- The forward pass through the first `count` layers reads only the layers at
indices below `count`. -/
lemma forwardSigmoid_congr (L1 L2 : List SigmoidLayer) (count : ℕ) (us : ℕ → Mat)
    (x : Mat) (h : ∀ i, i < count → L1.getD i default = L2.getD i default) :
    forwardSigmoid L1 count us x = forwardSigmoid L2 count us x := by
  induction count with
  | zero => rfl
  | succ c ih =>
    rw [forwardSigmoid_succ, forwardSigmoid_succ,
      ih (fun i hi => h i (Nat.lt_succ_of_lt hi)), h c (Nat.lt_succ_self c)]

/-- The specification's formula for the greedy pretraining cost of layer
layer_index in a 2k-layer autoencoder: forward-propagate through layers
[0, layer_index), apply layer layer_index to get the hidden code, reconstruct
via the mirrored decoder layer at index 2k - 1 - layer_index, and return the
binary cross entropy between the layer's input representation and its
reconstruction. -/
def specLayerCost (ae : Autoencoder) (x : Mat) (rows layer_index k : ℕ)
    (us : ℕ → Mat) (urec : Mat) : ℝ :=
  let input_rep := forwardSigmoid ae.layers_list layer_index us x
  let hcode := (ae.layers_list.getD layer_index default).callB (us layer_index) input_rep
  let reconstruction := (ae.layers_list.getD (2 * k - 1 - layer_index) default).callB
    urec hcode;
  -(∑ r ∈ Finset.range rows, ∑ j ∈ Finset.range (ae.dimensions.getD layer_index 0),
      (input_rep r j * Real.log (reconstruction r j) +
        (1 - input_rep r j) * Real.log (1 - reconstruction r j)))

/-- C5: in a 2k-layer autoencoder, layerCost(x, i) equals the spec's formula —
forward through layers [0, i), encode with layer i, reconstruct with the
mirrored layer 2k - 1 - i, binary cross entropy — and its value depends only
on the layers at indices 0..i and at the mirrored index (together with the
stored dimension list): two autoencoders agreeing there have equal costs. -/
theorem layerCost_mirror_and_dependence (ae1 ae2 : Autoencoder) (x : Mat)
    (rows i k : ℕ) (us : ℕ → Mat) (urec : Mat)
    (h2k : ae1.layers_list.length = 2 * k) (_hik : i < 2 * k)
    (hdim : ae1.dimensions = ae2.dimensions)
    (hlen : ae1.layers_list.length = ae2.layers_list.length)
    (hag : ∀ t, t ≤ i →
      ae1.layers_list.getD t default = ae2.layers_list.getD t default)
    (hmir : ae1.layers_list.getD (2 * k - 1 - i) default =
      ae2.layers_list.getD (2 * k - 1 - i) default) :
    ae1.layerCost x rows i us urec = specLayerCost ae1 x rows i k us urec ∧
    ae1.layerCost x rows i us urec = ae2.layerCost x rows i us urec := by
  have h2k2 : ae2.layers_list.length = 2 * k := by rw [← hlen, h2k]
  have hrep : forwardSigmoid ae1.layers_list i us x =
      forwardSigmoid ae2.layers_list i us x :=
    forwardSigmoid_congr _ _ i us x (fun t ht => hag t (le_of_lt ht))
  constructor
  · simp only [Autoencoder.layerCost, specLayerCost, h2k]
  · simp only [Autoencoder.layerCost, h2k, h2k2, hdim, hrep, hag i (le_refl i), hmir]

/-- Witness for C5 at a concrete two-layer autoencoder. -/
theorem layerCost_mirror_and_dependence_witness :
    (aeOne.layers_list.length = 2 * 1 ∧ 0 < 2 * 1 ∧
      aeOne.dimensions = aeOne.dimensions ∧
      aeOne.layers_list.length = aeOne.layers_list.length) ∧
    (aeOne.layerCost mat0 1 0 (fun _ => mat0) mat0 =
      specLayerCost aeOne mat0 1 0 1 (fun _ => mat0) mat0 ∧
    aeOne.layerCost mat0 1 0 (fun _ => mat0) mat0 =
      aeOne.layerCost mat0 1 0 (fun _ => mat0) mat0) :=
  ⟨⟨by simp [aeOne, mkAutoencoder], by norm_num, rfl, rfl⟩,
    layerCost_mirror_and_dependence aeOne aeOne mat0 1 0 1 (fun _ => mat0) mat0
      (by simp [aeOne, mkAutoencoder]) (by norm_num) rfl rfl (fun t _ => rfl) rfl⟩

end GMMN

namespace GMMN

/-! ### Nonnegativity of the autoencoder costs (claim C6) -/

lemma sigmoid_pos (z : ℝ) : 0 < sigmoid z := by
  rw [sigmoid]
  positivity

lemma sigmoid_lt_one (z : ℝ) : sigmoid z < 1 := by
  rw [sigmoid, div_lt_one (by positivity)]
  have := Real.exp_pos (-z)
  linarith

/-- Every entry a sigmoid layer produces lies strictly between 0 and 1. -/
lemma sigmoidLayer_callB_mem_unit (L : SigmoidLayer) (u x : Mat) (r j : ℕ) :
    0 < L.callB u x r j ∧ L.callB u x r j < 1 := by
  simp only [SigmoidLayer.callB, SigmoidLayer.call]
  exact ⟨sigmoid_pos _, sigmoid_lt_one _⟩

/-- Entries stay strictly inside (0, 1) through any prefix of the
autoencoder's sigmoid layers, for inputs with entries in (0, 1). -/
lemma forwardSigmoid_mem_unit (L : List SigmoidLayer) (count : ℕ) (us : ℕ → Mat)
    (x : Mat) (hx : ∀ r j, 0 < x r j ∧ x r j < 1) (r j : ℕ) :
    0 < forwardSigmoid L count us x r j ∧ forwardSigmoid L count us x r j < 1 := by
  cases count with
  | zero => exact hx r j
  | succ c =>
    rw [forwardSigmoid_succ]
    exact sigmoidLayer_callB_mem_unit _ _ _ r j

/-- One binary cross-entropy summand is nonpositive when the target lies in
[0, 1] and the reconstruction lies strictly inside (0, 1). -/
lemma bce_term_nonpos {a q : ℝ} (ha0 : 0 ≤ a) (ha1 : a ≤ 1) (hq0 : 0 < q)
    (hq1 : q < 1) : a * Real.log q + (1 - a) * Real.log (1 - q) ≤ 0 := by
  have h1 : Real.log q ≤ 0 := Real.log_nonpos (le_of_lt hq0) (le_of_lt hq1)
  have h2 : Real.log (1 - q) ≤ 0 := Real.log_nonpos (by linarith) (by linarith)
  nlinarith [mul_nonneg ha0 (neg_nonneg.mpr h1),
    mul_nonneg (by linarith : (0 : ℝ) ≤ 1 - a) (neg_nonneg.mpr h2)]

/-- C6: for every input batch with entries in (0, 1), layerCost and
finetuneCost are nonnegative: representations and reconstructions stay in
(0, 1) through the sigmoid layers, so every cross-entropy summand is
nonpositive and the negated sum is nonnegative. -/
theorem layerCost_finetuneCost_nonneg (ae : Autoencoder) (x : Mat)
    (rows i : ℕ) (us : ℕ → Mat) (urec : Mat)
    (hx : ∀ r j, 0 < x r j ∧ x r j < 1) :
    0 ≤ ae.layerCost x rows i us urec ∧ 0 ≤ ae.finetuneCost x rows us := by
  constructor
  · simp only [Autoencoder.layerCost]
    rw [neg_nonneg]
    apply Finset.sum_nonpos
    intro r _
    apply Finset.sum_nonpos
    intro j _
    have ha := forwardSigmoid_mem_unit ae.layers_list i us x hx r j
    have hq := sigmoidLayer_callB_mem_unit
      (ae.layers_list.getD (ae.layers_list.length - 1 - i) default) urec
      ((ae.layers_list.getD i default).callB (us i)
        (forwardSigmoid ae.layers_list i us x)) r j
    exact bce_term_nonpos (le_of_lt ha.1) (le_of_lt ha.2) hq.1 hq.2
  · simp only [Autoencoder.finetuneCost]
    rw [neg_nonneg]
    apply Finset.sum_nonpos
    intro r _
    apply Finset.sum_nonpos
    intro j _
    have ha := hx r j
    have hq := forwardSigmoid_mem_unit ae.layers_list ae.layers_list.length us x hx r j
    exact bce_term_nonpos (le_of_lt ha.1) (le_of_lt ha.2) hq.1 hq.2

/-- The constant one-half batch, a probability-like witness input. -/
def matHalf : Mat := fun _ _ => 1 / 2

/-- Witness for C6 at a concrete input batch with entries in (0, 1). -/
theorem layerCost_finetuneCost_nonneg_witness :
    (∀ r j, 0 < matHalf r j ∧ matHalf r j < 1) ∧
    (0 ≤ aeOne.layerCost matHalf 1 0 (fun _ => matHalf) matHalf ∧
      0 ≤ aeOne.finetuneCost matHalf 1 (fun _ => matHalf)) :=
  ⟨fun r j => by norm_num [matHalf],
    layerCost_finetuneCost_nonneg aeOne matHalf 1 0 (fun _ => matHalf) matHalf
      (fun r j => by norm_num [matHalf])⟩

end GMMN

namespace GMMN

/-! ### Encoder and decoder halves (claim C7) -/

lemma getD_take_of_lt (l : List SigmoidLayer) (k i : ℕ) (h : i < k) :
    (l.take k).getD i default = l.getD i default := by
  rw [List.getD_eq_getElem?_getD, List.getD_eq_getElem?_getD,
    List.getElem?_take_of_lt h]

lemma getD_drop (l : List SigmoidLayer) (k i : ℕ) :
    (l.drop k).getD i default = l.getD (k + i) default := by
  rw [List.getD_eq_getElem?_getD, List.getD_eq_getElem?_getD, List.getElem?_drop]

lemma mkAutoencoder_layers_length (dims : List ℕ) (dropout_fracs : ℕ → ℝ)
    (encW decW : ℕ → Mat) (encB decB : ℕ → Vec) :
    (mkAutoencoder dims dropout_fracs encW decW encB decB).layers_list.length =
      2 * (dims.length - 1) := by
  simp only [mkAutoencoder, List.length_append, List.length_map,
    List.length_reverse, List.length_range]
  omega

/-- C7: for an autoencoder built from a (k+1)-entry dimension list — so with
2k layers — encode applies exactly the first k layers, the encoder half
layers.take k, and nothing else (tf.stop_gradient is the identity on the
value), while generate applies the generator's own forward pass followed by
exactly the decoder half: layers k, k+1, ..., 2k-1 in order, the fold over
layers.drop k. -/
theorem encode_generate_halves (cnet : CodeSpaceNetwork) (dims : List ℕ)
    (dropout_fracs : ℕ → ℝ) (encW decW : ℕ → Mat) (encB decB : ℕ → Vec)
    (k : ℕ) (hk : dims.length = k + 1) (x noise : Mat) (us aeUs : ℕ → Mat) :
    (mkAutoencoder dims dropout_fracs encW decW encB decB).layers_list.length =
      2 * k ∧
    cnet.encode x (mkAutoencoder dims dropout_fracs encW decW encB decB) aeUs =
      forwardSigmoid
        ((mkAutoencoder dims dropout_fracs encW decW encB decB).layers_list.take k)
        k aeUs x ∧
    cnet.generate noise (mkAutoencoder dims dropout_fracs encW decW encB decB)
        us aeUs =
      (List.range k).foldl
        (fun g t =>
          (((mkAutoencoder dims dropout_fracs encW decW encB decB).layers_list.drop
            k).getD t default).callB (aeUs (k + t)) g)
        (cnet.call us noise) := by
  set ae := mkAutoencoder dims dropout_fracs encW decW encB decB with hae
  have hlen : ae.layers_list.length = 2 * k := by
    rw [hae, mkAutoencoder_layers_length, hk]
    omega
  have hdims : ae.dimensions = dims := rfl
  refine ⟨hlen, ?_, ?_⟩
  · rw [CodeSpaceNetwork.encode, hlen]
    have hhalf : 2 * k / 2 = k := by omega
    rw [hhalf]
    apply forwardSigmoid_congr
    intro t ht
    exact (getD_take_of_lt _ k t ht).symm
  · simp only [CodeSpaceNetwork.generate, CodeSpaceNetwork.call]
    have hstart : ae.dimensions.length - 1 = k := by
      rw [hdims, hk]
      omega
    rw [hstart, hlen]
    have hcount : 2 * k - k = k := by omega
    rw [hcount, List.range'_eq_map_range, List.foldl_map]
    have hfun : (fun (g : Mat) (t : ℕ) =>
        (ae.layers_list.getD (k + t) default).callB (aeUs (k + t)) g) =
        fun g t => ((ae.layers_list.drop k).getD t default).callB (aeUs (k + t)) g := by
      funext g t
      rw [getD_drop]
    exact congrArg (fun f => (List.range k).foldl f
      (forwardLayers cnet.layers_list cnet.dimensions.length us noise)) hfun

/-- Witness for C7 at a concrete two-layer autoencoder. -/
theorem encode_generate_halves_witness :
    (([1, 1] : List ℕ).length = 1 + 1) ∧
    ((mkAutoencoder [1, 1] (fun _ => 0) Ws0 Ws0 bs0 bs0).layers_list.length =
      2 * 1 ∧
    cnetOne.encode mat0 (mkAutoencoder [1, 1] (fun _ => 0) Ws0 Ws0 bs0 bs0)
        (fun _ => mat0) =
      forwardSigmoid
        ((mkAutoencoder [1, 1] (fun _ => 0) Ws0 Ws0 bs0 bs0).layers_list.take 1)
        1 (fun _ => mat0) mat0 ∧
    cnetOne.generate mat0 (mkAutoencoder [1, 1] (fun _ => 0) Ws0 Ws0 bs0 bs0)
        (fun _ => mat0) (fun _ => mat0) =
      (List.range 1).foldl
        (fun g t =>
          (((mkAutoencoder [1, 1] (fun _ => 0) Ws0 Ws0 bs0 bs0).layers_list.drop
            1).getD t default).callB ((fun _ => mat0) (1 + t)) g)
        (cnetOne.call (fun _ => mat0) mat0)) :=
  ⟨rfl,
    encode_generate_halves cnetOne [1, 1] (fun _ => 0) Ws0 Ws0 bs0 bs0 1 rfl
      mat0 mat0 (fun _ => mat0) (fun _ => mat0)⟩

end GMMN

namespace GMMN

/-! ### Dropout probability zero (claim C8) -/

/-- Modelled from the spec: the sigmoid layer forward with no dropout stage at
all — output = elementwise-logistic(x · W + b). -/
def sigmoidForwardNoDropout (L : SigmoidLayer) (x : Mat) : Mat :=
  fun r j => sigmoid (matmulRow L.input_dim (x r) L.W j + L.b j)

/-- C8: a sigmoid layer whose stored dropout probability is 0 (the
constructor's default) computes a forward pass that is a deterministic no-op
with respect to dropout: for every input batch and every admissible matrix of
uniform draws from [0, 1) the output is exactly
elementwise-logistic(x · W + b), identical to the same layer with no dropout
stage at all. -/
theorem sigmoidLayer_dropout_zero_noop (L : SigmoidLayer) (u x : Mat)
    (hL : L.dropout_prob = 0) (hu : ∀ r k, 0 ≤ u r k) :
    L.callB u x = sigmoidForwardNoDropout L x := by
  funext r j
  have hdrop : dropout L.dropout_prob (u r) (x r) = x r := by
    funext k
    simp only [dropout]
    rw [hL, if_neg (not_lt.mpr (hu r k))]
    simp
  simp only [SigmoidLayer.callB, SigmoidLayer.call, sigmoidForwardNoDropout, hdrop]

/-- Witness for C8 at a concrete layer, draw matrix and batch. -/
theorem sigmoidLayer_dropout_zero_noop_witness :
    ((⟨1, 1, fun _ _ => 0, fun _ => 0, 0⟩ : SigmoidLayer).dropout_prob = 0 ∧
      (∀ r k, 0 ≤ mat0 r k)) ∧
    (⟨1, 1, fun _ _ => 0, fun _ => 0, 0⟩ : SigmoidLayer).callB mat0 matHalf =
      sigmoidForwardNoDropout ⟨1, 1, fun _ _ => 0, fun _ => 0, 0⟩ matHalf :=
  ⟨⟨rfl, fun _ _ => le_refl 0⟩,
    sigmoidLayer_dropout_zero_noop ⟨1, 1, fun _ _ => 0, fun _ => 0, 0⟩ mat0 matHalf
      rfl (fun _ _ => le_refl 0)⟩

end GMMN
